import Mathlib

/-!
Shallow embedding of the `throttle` memoization library:
the key resolver (`toResolverKey`), the bounded LRU cache
(`src/cache/lru.ts`), the weak-reference primitive
(`src/weakref-generic.ts`) and the memoization engine (`throttle`).
JavaScript numbers are modelled as rationals plus an `Infinity`
point (`JsNum`); strings as `String`; the dynamic values an argument
resolver can produce as the inductive `JsVal`.
-/

/-- A JavaScript value as seen by the key resolver: primitives,
arrays, and plain objects (field lists). -/
inductive JsVal where
  | vNull
  | vUndef
  | vBool (b : Bool)
  | vNum (q : ℚ)
  | vStr (s : String)
  | vArr (xs : List JsVal)
  | vObj (fields : List (String × JsVal))

/-- `typeof v` for the modelled values (`typeof null` is `"object"`). -/
def jsTypeof : JsVal → String
  | .vNull => "object"
  | .vUndef => "undefined"
  | .vBool _ => "boolean"
  | .vNum _ => "number"
  | .vStr _ => "string"
  | .vArr _ => "object"
  | .vObj _ => "object"

/-- JavaScript truthiness of the modelled values. -/
def jsTruthy : JsVal → Bool
  | .vNull => false
  | .vUndef => false
  | .vBool b => b
  | .vNum q => q ≠ 0
  | .vStr s => s ≠ ""
  | .vArr _ => true
  | .vObj _ => true

/-- A primitive (non-object, non-array) value; `null` counts as
primitive for the spec's purposes even though `typeof null` is
`"object"`, since the resolver stringifies it. -/
def JsVal.isPrimitive : JsVal → Bool
  | .vArr _ => false
  | .vObj _ => false
  | _ => true

/-- `CacheKey = string | number`: `toResolverKey` returns either
`String(value)` or the external structural hash (a number). -/
inductive CacheKey where
  | str (s : String)
  | num (n : ℤ)
  deriving DecidableEq, Repr

/-- JavaScript truthiness of a cache key (`''` and `0` are falsy);
used by the LRU cache's `if (evictKey)` guard. -/
def CacheKey.truthy : CacheKey → Bool
  | .str s => s ≠ ""
  | .num n => n ≠ 0

/-- `toResolverKey` from the source: a single-element array recurses
on its element; a non-object or falsy value becomes `String(value)`;
anything else goes to the external structural hash. `strOf` models
the `String()` builtin and `hashOf` the external `hash-it` function,
both treated as opaque external collaborators. -/
def toResolverKey (strOf : JsVal → String) (hashOf : JsVal → ℤ) :
    JsVal → CacheKey
  | .vArr [v] => toResolverKey strOf hashOf v
  | v =>
    if jsTypeof v ≠ "object" || !jsTruthy v then .str (strOf v)
    else .num (hashOf v)

/-- A JavaScript number restricted to the values the library
manipulates: finite (rational) values and `Infinity`. -/
inductive JsNum where
  | fin (q : ℚ)
  | inf
  deriving DecidableEq, Repr

/-- `queue.length > maxSize`: true when the natural `len` strictly
exceeds the bound; `Infinity` is never exceeded. -/
def JsNum.exceededBy (m : JsNum) (len : ℕ) : Bool :=
  match m with
  | .fin q => (len : ℚ) > q
  | .inf => false

/-- `Map.get`/`Map.has` backing lookup: first (and only) binding of
a key in the association list modelling the `Map`. -/
def mapLookup {K V : Type} [DecidableEq K] : List (K × V) → K → Option V
  | [], _ => none
  | (k', v) :: rest, k => if k' = k then some v else mapLookup rest k

/-- `Map.set`: update the key's binding in place if present
(JavaScript `Map` keeps insertion order on update), else append the
new binding at the end. -/
def mapSet {K V : Type} [DecidableEq K] : List (K × V) → K → V → List (K × V)
  | [], k, v => [(k, v)]
  | (k', w) :: rest, k, v =>
    if k' = k then (k, v) :: rest else (k', w) :: mapSet rest k v

/-- `Map.delete`: remove the key's binding (a `Map` holds at most
one binding per key, so dropping every binding of the key is the
same operation on the reachable states). -/
def mapDelete {K V : Type} [DecidableEq K] : List (K × V) → K → List (K × V)
  | [], _ => []
  | (k', w) :: rest, k =>
    if k' = k then mapDelete rest k else (k', w) :: mapDelete rest k

/-- Mutation of the value object a key's binding holds (the cache
stores the same reference the engine's closures mutate in place). -/
def mapUpdate {K V : Type} [DecidableEq K] :
    List (K × V) → K → (V → V) → List (K × V)
  | [], _, _ => []
  | (k', w) :: rest, k, f =>
    if k' = k then (k', f w) :: rest else (k', w) :: mapUpdate rest k f

/-- The state of one `LruCache` instance: `#storage`, the recency
`#queue` (oldest first), and the effective `#maxSize` after the
constructor's `options.maxSize || Infinity`. -/
structure LruCache (K V : Type) where
  storage : List (K × V)
  queue : List K
  maxSize : JsNum

/-- `new LruCache(options)`: `#maxSize = options.maxSize || Infinity`,
so an absent, zero (falsy) `maxSize` yields `Infinity`. -/
def LruCache.new (K V : Type) (maxSize : Option JsNum) : LruCache K V :=
  { storage := []
    queue := []
    maxSize :=
      match maxSize with
      | none => .inf
      | some .inf => .inf
      | some (.fin q) => if q = 0 then .inf else .fin q }

namespace LruCache

variable {K V : Type} [DecidableEq K]

/-- `#hit(key)`: move `key` to the newest end if already queued, else
append it and, when the queue exceeds `#maxSize`, shift the oldest
key and delete it from storage — but only `if (evictKey)` is truthy,
mirroring the source's guard. `tr` is JavaScript truthiness on keys. -/
def hit (tr : K → Bool) (c : LruCache K V) (key : K) : LruCache K V :=
  if key ∈ c.queue then
    { c with queue := c.queue.erase key ++ [key] }
  else
    let queue := c.queue ++ [key]
    if c.maxSize.exceededBy queue.length then
      match queue with
      | [] => { c with queue := queue }
      | evictKey :: rest =>
        if tr evictKey then
          { c with queue := rest, storage := mapDelete c.storage evictKey }
        else { c with queue := rest }
    else { c with queue := queue }

/-- `#evict(key)`: remove `key` from the recency queue if present. -/
def evict (c : LruCache K V) (key : K) : LruCache K V :=
  { c with queue := c.queue.erase key }

/-- `has(key)`: pure storage membership. -/
def has (c : LruCache K V) (key : K) : Bool :=
  (mapLookup c.storage key).isSome

/-- `get(key)`: hit the key when present, then read the storage
(after the hit — the hit may have evicted the key itself when
`maxSize < 1`). -/
def get (tr : K → Bool) (c : LruCache K V) (key : K) :
    LruCache K V × Option V :=
  let c' := if c.has key then c.hit tr key else c
  (c', mapLookup c'.storage key)

/-- `set(key, value)`: hit first, then write to storage. -/
def set (tr : K → Bool) (c : LruCache K V) (key : K) (v : V) :
    LruCache K V :=
  let c' := c.hit tr key
  { c' with storage := mapSet c'.storage key v }

/-- `delete(key)`: evict from the queue and delete from storage. -/
def delete (c : LruCache K V) (key : K) : LruCache K V :=
  let c' := c.evict key
  { c' with storage := mapDelete c'.storage key }

/-- `clear()`: empty both structures. -/
def clear (c : LruCache K V) : LruCache K V :=
  { c with queue := [], storage := [] }

end LruCache

/-! Weak-reference primitive (`src/weakref-generic.ts`).  A
`WeakRef`'s observable state at any instant is whether `deref()`
still yields the target: modelled as `Option α` (`none` once the
target has been reclaimed). -/

/-- `getRealRef(v) = v.deref()`. -/
def getRealRef {α : Type} (v : Option α) : Option α := v

/-- `typeof v.deref()`: the referent is an object, so `deref()` is
either the object or `undefined`. -/
def jsTypeofDeref {α : Type} (v : Option α) : String :=
  match v with
  | some _ => "object"
  | none => "undefined"

/-- JavaScript strict equality of a value against `undefined`. -/
def jsStrictEqUndef : JsVal → Bool
  | .vUndef => true
  | _ => false

/-- `isRealRefDead(v) = (typeof v.deref() === undefined)`: the
source compares the *string* returned by `typeof` against the
`undefined` value itself (not the string `"undefined"`), a strict
equality between values of different types. -/
def isRealRefDead {α : Type} (v : Option α) : Bool :=
  jsStrictEqUndef (.vStr (jsTypeofDeref v))

/-! Memoization engine (`throttle`). -/

/-- A cached value: either a plain (non-thenable) value or an
in-flight promise.  A promise carries its eventual rejection reason
and the list of `catch` handlers attached so far; the engine only
ever attaches `item.clear`, recorded as the key that handler would
clear. -/
inductive CVal where
  | plain (v : JsVal)
  | prom (reason : ℤ) (handlers : List CacheKey)

/-- `isPromise(v)`: thenable check; only `prom` values are thenable
in the model. -/
def CVal.isPromise : CVal → Bool
  | .prom _ _ => true
  | .plain _ => false

/-- A `CacheItem`: the key, the cached value, and the state of the
closure variable `timer` shared by the entry's `clear`/`ttl`
closures (`none` = no pending timer, `some d` = a timer armed for
duration `d`). -/
structure CacheItem where
  key : CacheKey
  value : CVal
  timer : Option ℚ

/-- The argument of the entry's `ttl` operation:
`newTimeout: number | false`. -/
inductive NewTimeout where
  | num (n : JsNum)
  | off

/-- `applyTimeout(newTimeout)`: cancel any pending timer; if the new
timeout is `Infinity` or `false`, leave the entry non-expiring
(no timer); otherwise arm a timer for the given duration. -/
def applyTimeout (newTimeout : NewTimeout) (_timer : Option ℚ) :
    Option ℚ :=
  match newTimeout with
  | .num .inf => none
  | .off => none
  | .num (.fin q) => some q

/-- `rejectFailedPromise(item)`: if the cached value is not a
promise, do nothing; otherwise attach `item.clear` as a rejection
handler (`value.catch(item.clear)`), recorded as `item.key`. -/
def rejectFailedPromise (item : CacheItem) : CacheItem :=
  match item.value with
  | .prom r hs => { item with value := .prom r (hs ++ [item.key]) }
  | .plain _ => item

/-- `getOnCached(options)`: with `rejectFailedPromise === false`,
return the user observer or `noop`; otherwise return
`rejectFailedPromise`, composed after it with the user observer when
one is configured.  Observers are modelled as transformers of the
(shared, mutable) cache item. -/
def getOnCached (rejectOpt : Option Bool)
    (onCached : Option (CacheItem → CacheItem)) : CacheItem → CacheItem :=
  if rejectOpt = some false then onCached.getD id
  else
    match onCached with
    | none => rejectFailedPromise
    | some f => fun item => f (rejectFailedPromise item)

/-- The recognised `ThrottleOptions` for the built-in cache (the
`cache` option, which substitutes a caller-owned cache, is outside
the modelled configurations). -/
structure ThrottleOptions where
  resolver : Option (List JsVal → JsVal)
  maxSize : Option JsNum
  rejectFailedPromise : Option Bool
  onCached : Option (CacheItem → CacheItem)

/-- All-default options. -/
def ThrottleOptions.default : ThrottleOptions :=
  { resolver := none, maxSize := none, rejectFailedPromise := none
    onCached := none }

/-- `defaultResolver`: returns the raw argument list (as an array
value). -/
def defaultResolver (args : List JsVal) : JsVal := .vArr args

/-- The external JavaScript builtins the key resolver uses:
`String()` and the `hash-it` structural hash. -/
structure JsExternals where
  strOf : JsVal → String
  hashOf : JsVal → ℤ

/-- `getCache(options)`: a finite numeric `maxSize` selects the
bounded `LruCache`; otherwise a plain `Map` is used, modelled as an
`LruCache` with infinite bound (observationally identical through
`get`/`has`/`set`/`delete`/`clear`, since an infinite bound never
evicts). -/
def getCache (opts : ThrottleOptions) : LruCache CacheKey CacheItem :=
  match opts.maxSize with
  | some (.fin q) => LruCache.new CacheKey CacheItem (some (.fin q))
  | some .inf => LruCache.new CacheKey CacheItem none
  | none => LruCache.new CacheKey CacheItem none

/-- The key the engine derives for a call:
`toResolverKey(resolver(...args))` with the configured or default
resolver. -/
def resolvedKey (ext : JsExternals) (opts : ThrottleOptions)
    (args : List JsVal) : CacheKey :=
  toResolverKey ext.strOf ext.hashOf ((opts.resolver.getD defaultResolver) args)

/-- Engine state: the cache and the number of callee invocations so
far (the instrumentation the spec's call-counting properties are
about). -/
structure EngineState where
  cache : LruCache CacheKey CacheItem
  calls : ℕ

/-- The fresh state `throttle` starts from. -/
def EngineState.init (opts : ThrottleOptions) : EngineState :=
  { cache := getCache opts, calls := 0 }

/-- Result of one call of the memoized wrapper: a returned value, a
propagated synchronous throw of the callee, or the `TypeError` of
the source's non-null assertion `cache.get(key)!` failing. -/
inductive Outcome (ε : Type) where
  | ret (v : CVal)
  | thrown (e : ε)
  | crash

/-- `!timeout || timeout < 1` for a finite timeout value. -/
def bypassesNum (q : ℚ) : Bool := q = 0 || q < 1

/-- In-place mutation of the item stored under `key` (the cache
holds the same reference the closures mutate); recency untouched. -/
def LruCache.updateStored {K V : Type} [DecidableEq K]
    (c : LruCache K V) (key : K) (f : V → V) : LruCache K V :=
  { c with storage := mapUpdate c.storage key f }

/-- One call of the memoized wrapper (`throttle`'s returned
closure).  `timeout = none` models an unset `timeout` argument. -/
def invoke {ε : Type} (ext : JsExternals) (opts : ThrottleOptions)
    (func : List JsVal → Except ε CVal) (timeout : Option JsNum)
    (args : List JsVal) (s : EngineState) : Outcome ε × EngineState :=
  match timeout with
  | none =>
    -- `!timeout`: unset timeout bypasses caching
    match func args with
    | .ok v => (.ret v, { s with calls := s.calls + 1 })
    | .error e => (.thrown e, { s with calls := s.calls + 1 })
  | some .inf =>
    invokeCached ext opts func (.inf) args s
  | some (.fin q) =>
    if bypassesNum q then
      match func args with
      | .ok v => (.ret v, { s with calls := s.calls + 1 })
      | .error e => (.thrown e, { s with calls := s.calls + 1 })
    else invokeCached ext opts func (.fin q) args s
where
  /-- The caching path (`timeout` set and ≥ 1, or `Infinity`). -/
  invokeCached (ext : JsExternals) (opts : ThrottleOptions)
      (func : List JsVal → Except ε CVal) (timeout : JsNum)
      (args : List JsVal) (s : EngineState) : Outcome ε × EngineState :=
    let key := resolvedKey ext opts args
    if s.cache.has key then
      match s.cache.get CacheKey.truthy key with
      | (c', some it) => (.ret it.value, { cache := c', calls := s.calls })
      | (c', none) => (.crash, { cache := c', calls := s.calls })
    else
      match func args with
      | .error e => (.thrown e, { s with calls := s.calls + 1 })
      | .ok value =>
        let item : CacheItem := { key := key, value := value, timer := none }
        let c1 := s.cache.set CacheKey.truthy key item
        -- `applyTimeout(timeout)` mutates the shared item's timer
        let c2 := c1.updateStored key
          (fun it => { it with timer := applyTimeout (.num timeout) it.timer })
        -- `onCached(cacheItem)` mutates the shared item
        let c3 := c2.updateStored key
          (getOnCached opts.rejectFailedPromise opts.onCached)
        -- `return cache.get(key)!.value`: re-read after population
        match c3.get CacheKey.truthy key with
        | (c4, some it) => (.ret it.value, { cache := c4, calls := s.calls + 1 })
        | (c4, none) => (.crash, { cache := c4, calls := s.calls + 1 })

/-- `retrieveCachedValue(...args)`: `cache.get(key)?.value`. -/
def retrieveCachedValue (ext : JsExternals) (opts : ThrottleOptions)
    (args : List JsVal) (s : EngineState) : EngineState × Option CVal :=
  let key := resolvedKey ext opts args
  match s.cache.get CacheKey.truthy key with
  | (c', r) => ({ s with cache := c' }, r.map (·.value))

/-- `clearCache(...)`: with no arguments clear the whole cache, else
delete the entry of the resolved key. -/
def clearCache (ext : JsExternals) (opts : ThrottleOptions)
    (argsOpt : Option (List JsVal)) (s : EngineState) : EngineState :=
  match argsOpt with
  | none => { s with cache := s.cache.clear }
  | some args => { s with cache := s.cache.delete (resolvedKey ext opts args) }

/-- The entry's `clear` closure as run by a firing expiry timer:
cancel the pending timer, then — guarded by `isRealRefDead` and the
`if (realCache)` null check — delete the key from the weakly
referenced cache if it is still alive.  Returns the closure's new
`timer` value and the surviving cache (if any). -/
def clearViaWeakRef (key : CacheKey) (_timer : Option ℚ)
    (cacheRef : Option (LruCache CacheKey CacheItem)) :
    Option ℚ × Option (LruCache CacheKey CacheItem) :=
  let timer : Option ℚ := none  -- cancelTimeout()
  if !(isRealRefDead cacheRef) then
    match getRealRef cacheRef with
    | some realCache => (timer, some (realCache.delete key))
    | none => (timer, cacheRef)
  else (timer, cacheRef)

/-- `item.clear` with the cache still reachable: cancel the entry's
timer (a mutation of the shared stored item) and delete the key. -/
def fireClear (key : CacheKey) (c : LruCache CacheKey CacheItem) :
    LruCache CacheKey CacheItem :=
  (c.updateStored key (fun it => { it with timer := none })).delete key

/-- A promise rejection firing: run every attached `catch` handler
(each one an `item.clear`, recorded by key) against the cache, and
report the rejection reason, which the handlers do not alter —
`catch(item.clear)` observes the failure, it does not replace it for
other holders of the promise. -/
def fireRejection (v : CVal) (c : LruCache CacheKey CacheItem) :
    LruCache CacheKey CacheItem × Option ℤ :=
  match v with
  | .prom r hs => (hs.foldl (fun acc k => fireClear k acc) c, some r)
  | .plain _ => (c, none)

/-- JavaScript truthiness of a string key (as used by the standalone
`Cache` scenarios keyed by strings). -/
def jsStrTruthy (s : String) : Bool := s ≠ ""

/-- The cache's capacity is sane: infinite, or a finite bound of at
least one entry. -/
def boundOk {K V : Type} (c : LruCache K V) : Prop :=
  match c.maxSize with
  | .inf => True
  | .fin m => 1 ≤ m

section MapLemmas

variable {K V : Type} [DecidableEq K]

theorem mapSet_lookup_self (m : List (K × V)) (k : K) (v : V) :
    mapLookup (mapSet m k v) k = some v := by
  induction m with
  | nil => simp [mapSet, mapLookup]
  | cons kv rest ih =>
    obtain ⟨a, b⟩ := kv
    by_cases hk : a = k
    · simp [mapSet, hk, mapLookup]
    · simp [mapSet, hk, mapLookup, ih]

theorem mapSet_lookup_ne (m : List (K × V)) (k k' : K) (v : V)
    (h : k' ≠ k) : mapLookup (mapSet m k v) k' = mapLookup m k' := by
  induction m with
  | nil => simp [mapSet, mapLookup, Ne.symm h]
  | cons kv rest ih =>
    obtain ⟨a, b⟩ := kv
    by_cases hk : a = k
    · simp [mapSet, hk, mapLookup, Ne.symm h]
    · simp [mapSet, hk, mapLookup, ih]

theorem mapDelete_lookup_self (m : List (K × V)) (k : K) :
    mapLookup (mapDelete m k) k = none := by
  induction m with
  | nil => simp [mapDelete, mapLookup]
  | cons kv rest ih =>
    obtain ⟨a, b⟩ := kv
    by_cases hk : a = k
    · simp [mapDelete, hk, ih]
    · simp [mapDelete, hk, mapLookup, ih]

theorem mapDelete_lookup_ne (m : List (K × V)) (k k' : K) (h : k' ≠ k) :
    mapLookup (mapDelete m k) k' = mapLookup m k' := by
  induction m with
  | nil => simp [mapDelete]
  | cons kv rest ih =>
    obtain ⟨a, b⟩ := kv
    by_cases hk : a = k
    · subst hk
      simp [mapDelete, mapLookup, Ne.symm h, ih]
    · simp [mapDelete, hk, mapLookup, ih]

theorem mapUpdate_lookup_self (m : List (K × V)) (k : K) (f : V → V) :
    mapLookup (mapUpdate m k f) k = (mapLookup m k).map f := by
  induction m with
  | nil => simp [mapUpdate, mapLookup]
  | cons kv rest ih =>
    obtain ⟨a, b⟩ := kv
    by_cases hk : a = k
    · simp [mapUpdate, hk, mapLookup]
    · simp [mapUpdate, hk, mapLookup, ih]

theorem mapUpdate_lookup_ne (m : List (K × V)) (k k' : K) (f : V → V)
    (h : k' ≠ k) : mapLookup (mapUpdate m k f) k' = mapLookup m k' := by
  induction m with
  | nil => simp [mapUpdate, mapLookup]
  | cons kv rest ih =>
    obtain ⟨a, b⟩ := kv
    by_cases hk : a = k
    · simp [mapUpdate, hk, mapLookup, Ne.symm h]
    · simp [mapUpdate, hk, mapLookup, ih]

end MapLemmas

theorem boundOk_of_maxSize_eq {K V : Type} {c c' : LruCache K V}
    (h : c'.maxSize = c.maxSize) (hb : boundOk c) : boundOk c' := by
  unfold boundOk at *
  rw [h]
  exact hb

section LruLemmas

variable {K V : Type} [DecidableEq K]

theorem hit_maxSize (tr : K → Bool) (c : LruCache K V) (k : K) :
    (c.hit tr k).maxSize = c.maxSize := by
  unfold LruCache.hit
  split
  · rfl
  · dsimp only
    split
    · split
      · rfl
      · split <;> rfl
    · rfl

theorem hit_storage_of_mem (tr : K → Bool) (c : LruCache K V) (k : K)
    (h : k ∈ c.queue) :
    (c.hit tr k).storage = c.storage ∧
      (c.hit tr k).queue = c.queue.erase k ++ [k] := by
  unfold LruCache.hit
  rw [if_pos h]
  exact ⟨rfl, rfl⟩

theorem set_maxSize (tr : K → Bool) (c : LruCache K V) (k : K) (v : V) :
    (c.set tr k v).maxSize = c.maxSize := by
  unfold LruCache.set
  exact hit_maxSize tr c k

theorem set_lookup_self (tr : K → Bool) (c : LruCache K V) (k : K) (v : V) :
    mapLookup (c.set tr k v).storage k = some v := by
  unfold LruCache.set
  exact mapSet_lookup_self _ k v


theorem set_mem_queue (tr : K → Bool) (c : LruCache K V) (k : K) (v : V)
    (hb : boundOk c) : k ∈ (c.set tr k v).queue := by
  unfold LruCache.set LruCache.hit
  by_cases hmem : k ∈ c.queue
  · simp only [if_pos hmem]
    simp
  · simp only [if_neg hmem]
    split
    · next hexc =>
      cases hq : c.queue with
      | nil =>
        exfalso
        rw [hq] at hexc
        unfold boundOk at hb
        cases hms : c.maxSize with
        | inf => rw [hms] at hexc; simp [JsNum.exceededBy] at hexc
        | fin m =>
          rw [hms] at hb hexc
          simp [JsNum.exceededBy] at hexc
          exact absurd (lt_of_le_of_lt hb hexc) (by norm_num)
      | cons a rest0 =>
        dsimp only [List.cons_append]
        split <;> simp
    · simp

theorem updateStored_queue (c : LruCache K V) (k : K) (f : V → V) :
    (c.updateStored k f).queue = c.queue := rfl

theorem updateStored_maxSize (c : LruCache K V) (k : K) (f : V → V) :
    (c.updateStored k f).maxSize = c.maxSize := rfl

theorem updateStored_lookup_self (c : LruCache K V) (k : K) (f : V → V) :
    mapLookup (c.updateStored k f).storage k =
      (mapLookup c.storage k).map f := by
  unfold LruCache.updateStored
  exact mapUpdate_lookup_self _ k f

theorem get_of_mem (tr : K → Bool) (c : LruCache K V) (k : K)
    (hmem : k ∈ c.queue) (hhas : c.has k = true) :
    c.get tr k = (c.hit tr k, mapLookup c.storage k) := by
  simp only [LruCache.get, hhas, if_true]
  rw [(hit_storage_of_mem tr c k hmem).1]

theorem delete_lookup_self (c : LruCache K V) (k : K) :
    mapLookup (c.delete k).storage k = none := by
  unfold LruCache.delete LruCache.evict
  exact mapDelete_lookup_self _ k

theorem delete_lookup_ne (c : LruCache K V) (k k' : K) (h : k' ≠ k) :
    mapLookup (c.delete k).storage k' = mapLookup c.storage k' := by
  unfold LruCache.delete LruCache.evict
  exact mapDelete_lookup_ne _ k k' h

end LruLemmas

/-- The cache item as it stands once the populate path has run
`applyTimeout(timeout)` and the `onCached` observer on the freshly
stored (shared) item. -/
def populatedItem (opts : ThrottleOptions) (key : CacheKey) (v : CVal)
    (tm : JsNum) : CacheItem :=
  getOnCached opts.rejectFailedPromise opts.onCached
    { key := key, value := v, timer := applyTimeout (.num tm) none }

theorem invokeCached_populate {ε : Type} (ext : JsExternals)
    (opts : ThrottleOptions) (func : List JsVal → Except ε CVal)
    (tm : JsNum) (args : List JsVal) (s : EngineState) (v : CVal)
    (hmiss : s.cache.has (resolvedKey ext opts args) = false)
    (hok : func args = Except.ok v)
    (hb : boundOk s.cache) :
    ∃ c4 : LruCache CacheKey CacheItem,
      invoke.invokeCached ext opts func tm args s =
        (Outcome.ret (populatedItem opts (resolvedKey ext opts args) v tm).value,
         { cache := c4, calls := s.calls + 1 }) ∧
      mapLookup c4.storage (resolvedKey ext opts args) =
        some (populatedItem opts (resolvedKey ext opts args) v tm) ∧
      resolvedKey ext opts args ∈ c4.queue ∧
      c4.maxSize = s.cache.maxSize := by
  set key := resolvedKey ext opts args with hkeydef
  set item0 : CacheItem := { key := key, value := v, timer := none } with hitem0
  set c1 := s.cache.set CacheKey.truthy key item0 with hc1
  set c2 := c1.updateStored key
    (fun it => { it with timer := applyTimeout (.num tm) it.timer }) with hc2
  set c3 := c2.updateStored key
    (getOnCached opts.rejectFailedPromise opts.onCached) with hc3
  have hql : mapLookup c1.storage key = some item0 := set_lookup_self _ _ _ _
  have hq2 : mapLookup c2.storage key =
      some { key := key, value := v, timer := applyTimeout (.num tm) none } := by
    rw [hc2, updateStored_lookup_self, hql]
    rfl
  have hq3 : mapLookup c3.storage key =
      some (populatedItem opts key v tm) := by
    rw [hc3, updateStored_lookup_self, hq2]
    rfl
  have hmem1 : key ∈ c1.queue := set_mem_queue _ _ _ _ hb
  have hmem3 : key ∈ c3.queue := by
    rw [hc3, updateStored_queue, hc2, updateStored_queue]
    exact hmem1
  have hhas3 : c3.has key = true := by
    unfold LruCache.has
    rw [hq3]
    rfl
  have hget : c3.get CacheKey.truthy key =
      (c3.hit CacheKey.truthy key, some (populatedItem opts key v tm)) := by
    rw [get_of_mem _ _ _ hmem3 hhas3, hq3]
  refine ⟨c3.hit CacheKey.truthy key, ?_, ?_, ?_, ?_⟩
  · simp only [invoke.invokeCached, ← hkeydef, hmiss, Bool.false_eq_true,
      if_false, hok]
    rw [← hitem0, ← hc1, ← hc2, ← hc3, hget]
  · rw [(hit_storage_of_mem CacheKey.truthy c3 key hmem3).1]
    exact hq3
  · rw [(hit_storage_of_mem CacheKey.truthy c3 key hmem3).2]
    simp
  · rw [hit_maxSize, hc3, updateStored_maxSize, hc2, updateStored_maxSize,
      hc1, set_maxSize]

theorem invokeCached_hit {ε : Type} (ext : JsExternals)
    (opts : ThrottleOptions) (func : List JsVal → Except ε CVal)
    (tm : JsNum) (args : List JsVal) (s : EngineState) (it : CacheItem)
    (hfound : mapLookup s.cache.storage (resolvedKey ext opts args) = some it)
    (hmem : resolvedKey ext opts args ∈ s.cache.queue) :
    invoke.invokeCached ext opts func tm args s =
      (Outcome.ret it.value,
       { cache := s.cache.hit CacheKey.truthy (resolvedKey ext opts args),
         calls := s.calls }) ∧
    mapLookup (s.cache.hit CacheKey.truthy
        (resolvedKey ext opts args)).storage (resolvedKey ext opts args) =
      some it ∧
    resolvedKey ext opts args ∈
      (s.cache.hit CacheKey.truthy (resolvedKey ext opts args)).queue ∧
    (s.cache.hit CacheKey.truthy (resolvedKey ext opts args)).maxSize =
      s.cache.maxSize := by
  set key := resolvedKey ext opts args with hkeydef
  have hhas : s.cache.has key = true := by
    unfold LruCache.has
    rw [hfound]
    rfl
  have hget : s.cache.get CacheKey.truthy key =
      (s.cache.hit CacheKey.truthy key, some it) := by
    rw [get_of_mem _ _ _ hmem hhas, hfound]
  refine ⟨?_, ?_, ?_, ?_⟩
  · simp only [invoke.invokeCached, ← hkeydef, hhas, if_true]
    rw [hget]
  · rw [(hit_storage_of_mem CacheKey.truthy s.cache key hmem).1]
    exact hfound
  · rw [(hit_storage_of_mem CacheKey.truthy s.cache key hmem).2]
    simp
  · exact hit_maxSize _ _ _

/-- `!timeout || timeout < 1` on a set (non-`undefined`) timeout. -/
def bypassesJsNum : JsNum → Bool
  | .inf => false
  | .fin q => bypassesNum q

theorem invoke_eq_invokeCached {ε : Type} (ext : JsExternals)
    (opts : ThrottleOptions) (func : List JsVal → Except ε CVal)
    (jn : JsNum) (hnb : bypassesJsNum jn = false) (args : List JsVal)
    (s : EngineState) :
    invoke ext opts func (some jn) args s =
      invoke.invokeCached ext opts func jn args s := by
  cases jn with
  | inf => rfl
  | fin q =>
    have hq : bypassesNum q = false := by
      simpa [bypassesJsNum] using hnb
    unfold invoke
    simp only [hq, Bool.false_eq_true, if_false]

theorem not_bypassesNum_of_one_le {q : ℚ} (hq : 1 ≤ q) :
    bypassesNum q = false := by
  have h0 : ¬ q = 0 := by
    intro h
    rw [h] at hq
    norm_num at hq
  have h1 : ¬ q < 1 := not_lt.mpr hq
  simp [bypassesNum, h0, h1]

theorem populatedItem_timer (opts : ThrottleOptions) (key : CacheKey)
    (v : CVal) (tm : JsNum) (h : opts.onCached = none) :
    (populatedItem opts key v tm).timer = applyTimeout (.num tm) none := by
  unfold populatedItem getOnCached
  rw [h]
  split
  · rfl
  · show (rejectFailedPromise _).timer = _
    unfold rejectFailedPromise
    cases v <;> rfl

theorem hit_storage_of_inf {K V : Type} [DecidableEq K] (tr : K → Bool)
    (c : LruCache K V) (k : K) (hinf : c.maxSize = .inf) :
    (c.hit tr k).storage = c.storage := by
  unfold LruCache.hit
  split
  · rfl
  · simp only [hinf, JsNum.exceededBy, Bool.false_eq_true, if_false]

/-- A sequence of `set` operations. -/
def applySets {K V : Type} [DecidableEq K] (tr : K → Bool)
    (c : LruCache K V) (ops : List (K × V)) : LruCache K V :=
  ops.foldl (fun acc kv => acc.set tr kv.1 kv.2) c

theorem set_inf_maxSize {K V : Type} [DecidableEq K] (tr : K → Bool)
    (c : LruCache K V) (k : K) (v : V) (hinf : c.maxSize = .inf) :
    (c.set tr k v).maxSize = .inf := by
  rw [set_maxSize]
  exact hinf

theorem set_inf_lookup_isSome {K V : Type} [DecidableEq K] (tr : K → Bool)
    (c : LruCache K V) (k k' : K) (v : V) (hinf : c.maxSize = .inf)
    (h : (mapLookup c.storage k').isSome = true ∨ k' = k) :
    (mapLookup (c.set tr k v).storage k').isSome = true := by
  by_cases hk : k' = k
  · subst hk
    rw [set_lookup_self]
    rfl
  · unfold LruCache.set
    rw [mapSet_lookup_ne _ _ _ _ hk, hit_storage_of_inf tr c k hinf]
    rcases h with h | h
    · exact h
    · exact absurd h hk

theorem applySets_inf_has {K V : Type} [DecidableEq K] (tr : K → Bool)
    (c0 : LruCache K V) (hinf : c0.maxSize = .inf) (ops : List (K × V))
    (k : K)
    (hk : k ∈ ops.map Prod.fst ∨ (mapLookup c0.storage k).isSome = true) :
    (applySets tr c0 ops).has k = true := by
  induction ops generalizing c0 with
  | nil =>
    rcases hk with h | h
    · simp at h
    · exact h
  | cons kv rest ih =>
    obtain ⟨a, b⟩ := kv
    show (applySets tr (c0.set tr a b) rest).has k = true
    apply ih (c0.set tr a b) (set_inf_maxSize tr c0 a b hinf)
    rcases hk with h | h
    · simp only [List.map_cons, List.mem_cons] at h
      rcases h with h | h
      · exact Or.inr (set_inf_lookup_isSome tr c0 a k b hinf (Or.inr h))
      · exact Or.inl h
    · exact Or.inr (set_inf_lookup_isSome tr c0 a k b hinf (Or.inl h))

theorem applySets_inf_maxSize {K V : Type} [DecidableEq K] (tr : K → Bool)
    (c0 : LruCache K V) (hinf : c0.maxSize = .inf) (ops : List (K × V)) :
    (applySets tr c0 ops).maxSize = .inf := by
  induction ops generalizing c0 with
  | nil => exact hinf
  | cons kv rest ih =>
    exact ih (c0.set tr kv.1 kv.2) (set_inf_maxSize tr c0 kv.1 kv.2 hinf)

theorem get_inf_isSome {K V : Type} [DecidableEq K] (tr : K → Bool)
    (c : LruCache K V) (k : K) (hinf : c.maxSize = .inf)
    (hhas : c.has k = true) : ((c.get tr k).2).isSome = true := by
  simp only [LruCache.get, hhas, if_true]
  rw [hit_storage_of_inf tr c k hinf]
  exact hhas

/-- Concrete externals for instantiating the engine theorems. -/
def extW : JsExternals := { strOf := fun _ => "k1", hashOf := fun _ => 0 }

/-- A callee returning a plain value. -/
def funcW : List JsVal → Except ℤ CVal := fun _ => Except.ok (.plain (.vNum 42))

/-- A callee that throws synchronously. -/
def funcErrW : List JsVal → Except ℤ CVal := fun _ => Except.error 7

/-- A callee returning an in-flight promise that will reject with
reason 5 and has no handlers attached yet. -/
def funcPromW : List JsVal → Except ℤ CVal := fun _ => Except.ok (.prom 5 [])

/-- The fresh default-configured engine state. -/
def stateW : EngineState := EngineState.init ThrottleOptions.default

/-- C1 (amended): for a memoized function whose timeout is a finite
duration of at least 1 (the source's `!timeout || timeout < 1` guard
bypasses caching for positive values below 1) and whose cache
capacity, if finite, is at least 1, calling it twice with arguments
that resolve to the same key — starting from a state where the key
is absent, with the callee succeeding, and with no timer firing or
clear happening in between — invokes the underlying callee exactly
once, and both calls return the same cached value. -/
theorem throttle_callee_invoked_once_within_ttl {ε : Type}
    (ext : JsExternals) (opts : ThrottleOptions)
    (func : List JsVal → Except ε CVal) (q : ℚ) (hq : 1 ≤ q)
    (args1 args2 : List JsVal)
    (hkey : resolvedKey ext opts args1 = resolvedKey ext opts args2)
    (s0 : EngineState) (hb : boundOk s0.cache)
    (hmiss : s0.cache.has (resolvedKey ext opts args1) = false)
    (v : CVal) (hok : func args1 = Except.ok v) :
    (invoke ext opts func (some (.fin q)) args2
        (invoke ext opts func (some (.fin q)) args1 s0).2).2.calls
      = s0.calls + 1 ∧
    ∃ w : CVal,
      (invoke ext opts func (some (.fin q)) args1 s0).1 = Outcome.ret w ∧
      (invoke ext opts func (some (.fin q)) args2
        (invoke ext opts func (some (.fin q)) args1 s0).2).1
        = Outcome.ret w := by
  have hnb : bypassesJsNum (.fin q) = false := by
    simp [bypassesJsNum, not_bypassesNum_of_one_le hq]
  rw [invoke_eq_invokeCached ext opts func _ hnb args1 s0]
  obtain ⟨c4, heq, hlook, hmem, hmax⟩ :=
    invokeCached_populate ext opts func (.fin q) args1 s0 v hmiss hok hb
  rw [heq]
  dsimp only
  rw [invoke_eq_invokeCached ext opts func _ hnb args2 _]
  have hlook2 : mapLookup c4.storage (resolvedKey ext opts args2) =
      some (populatedItem opts (resolvedKey ext opts args1) v (.fin q)) := by
    rw [← hkey]
    exact hlook
  have hmem2 : resolvedKey ext opts args2 ∈ c4.queue := by
    rw [← hkey]
    exact hmem
  obtain ⟨heq2, -, -, -⟩ :=
    invokeCached_hit ext opts func (.fin q) args2
      { cache := c4, calls := s0.calls + 1 } _ hlook2 hmem2
  rw [heq2]
  exact ⟨rfl, _, rfl, rfl⟩

/-- Witness for C1's theorem at timeout 1000 and argument `1`. -/
theorem throttle_callee_invoked_once_within_ttl_witness :
    (invoke extW ThrottleOptions.default funcW (some (.fin 1000)) [.vNum 1]
        (invoke extW ThrottleOptions.default funcW (some (.fin 1000))
          [.vNum 1] stateW).2).2.calls
      = stateW.calls + 1 ∧
    ∃ w : CVal,
      (invoke extW ThrottleOptions.default funcW (some (.fin 1000))
        [.vNum 1] stateW).1 = Outcome.ret w ∧
      (invoke extW ThrottleOptions.default funcW (some (.fin 1000)) [.vNum 1]
        (invoke extW ThrottleOptions.default funcW (some (.fin 1000))
          [.vNum 1] stateW).2).1 = Outcome.ret w :=
  throttle_callee_invoked_once_within_ttl extW ThrottleOptions.default funcW
    1000 (by decide) [.vNum 1] [.vNum 1] rfl stateW trivial rfl
    (.plain (.vNum 42)) rfl

/-- Counterexample to C1 as stated: the timeout one half is positive
and finite, yet two identical calls invoke the callee twice (each
call bypasses the cache because of the `timeout < 1` guard). -/
theorem throttle_subunit_timeout_invokes_twice :
    (0 : ℚ) < mkRat 1 2 ∧
    (invoke extW ThrottleOptions.default funcW (some (.fin (mkRat 1 2)))
        [.vNum 1]
        (invoke extW ThrottleOptions.default funcW (some (.fin (mkRat 1 2)))
          [.vNum 1] stateW).2).2.calls = 2 ∧
    (2 : ℕ) ≠ stateW.calls + 1 := by
  refine ⟨by decide, rfl, by decide⟩

/-- C2 (amended): an unset, zero, or negative top-level timeout — in
fact any finite value below 1, by the source's `timeout < 1` guard —
bypasses caching entirely (the callee runs on every call and no
entry is ever created); a finite duration of at least 1 caches the
result and arms a real expiry timer for that duration; `Infinity`
caches the result with no timer armed; and the entry's `ttl`
operation arms no timer when given `Infinity` or the disabling
sentinel `false`. -/
theorem throttle_timeout_classification {ε : Type} :
    (∀ (ext : JsExternals) (opts : ThrottleOptions)
        (func : List JsVal → Except ε CVal) (args : List JsVal)
        (s : EngineState),
      (invoke ext opts func none args s).2.cache = s.cache ∧
      (invoke ext opts func none args s).2.calls = s.calls + 1) ∧
    (∀ (ext : JsExternals) (opts : ThrottleOptions)
        (func : List JsVal → Except ε CVal) (q : ℚ), q < 1 ∨ q = 0 →
      ∀ (args : List JsVal) (s : EngineState),
      (invoke ext opts func (some (.fin q)) args s).2.cache = s.cache ∧
      (invoke ext opts func (some (.fin q)) args s).2.calls = s.calls + 1) ∧
    (∀ (ext : JsExternals) (opts : ThrottleOptions)
        (func : List JsVal → Except ε CVal) (q : ℚ), 1 ≤ q →
      opts.onCached = none →
      ∀ (args : List JsVal) (s : EngineState) (v : CVal),
        s.cache.has (resolvedKey ext opts args) = false →
        func args = Except.ok v → boundOk s.cache →
        ∃ it : CacheItem,
          mapLookup
            (invoke ext opts func (some (.fin q)) args s).2.cache.storage
            (resolvedKey ext opts args) = some it ∧ it.timer = some q) ∧
    (∀ (ext : JsExternals) (opts : ThrottleOptions)
        (func : List JsVal → Except ε CVal), opts.onCached = none →
      ∀ (args : List JsVal) (s : EngineState) (v : CVal),
        s.cache.has (resolvedKey ext opts args) = false →
        func args = Except.ok v → boundOk s.cache →
        ∃ it : CacheItem,
          mapLookup (invoke ext opts func (some .inf) args s).2.cache.storage
            (resolvedKey ext opts args) = some it ∧ it.timer = none) ∧
    (∀ t : Option ℚ,
      applyTimeout .off t = none ∧ applyTimeout (.num .inf) t = none) := by
  refine ⟨?_, ?_, ?_, ?_, ?_⟩
  · intro ext opts func args s
    unfold invoke
    cases hfa : func args <;> exact ⟨rfl, rfl⟩
  · intro ext opts func q hq args s
    have hbp : bypassesNum q = true := by
      unfold bypassesNum
      rcases hq with h | h <;> simp [h]
    unfold invoke
    simp only [hbp, if_true]
    cases hfa : func args <;> exact ⟨rfl, rfl⟩
  · intro ext opts func q hq honc args s v hmiss hok hb
    rw [invoke_eq_invokeCached ext opts func _
      (by simp [bypassesJsNum, not_bypassesNum_of_one_le hq]) args s]
    obtain ⟨c4, heq, hlook, -, -⟩ :=
      invokeCached_populate ext opts func (.fin q) args s v hmiss hok hb
    rw [heq]
    refine ⟨_, hlook, ?_⟩
    rw [populatedItem_timer _ _ _ _ honc]
    rfl
  · intro ext opts func honc args s v hmiss hok hb
    rw [invoke_eq_invokeCached ext opts func JsNum.inf rfl args s]
    obtain ⟨c4, heq, hlook, -, -⟩ :=
      invokeCached_populate ext opts func .inf args s v hmiss hok hb
    rw [heq]
    refine ⟨_, hlook, ?_⟩
    rw [populatedItem_timer _ _ _ _ honc]
    rfl
  · intro t
    exact ⟨rfl, rfl⟩

/-- Witness for C2's theorem: unset and zero timeouts leave the
cache untouched; timeout 1000 stores an entry with a 1000 timer;
`Infinity` stores an entry with no timer; `ttl(false)` arms none. -/
theorem throttle_timeout_classification_witness :
    ((invoke extW ThrottleOptions.default funcW none [.vNum 1]
        stateW).2.cache = stateW.cache) ∧
    ((invoke extW ThrottleOptions.default funcW (some (.fin 0)) [.vNum 1]
        stateW).2.cache = stateW.cache) ∧
    (∃ it : CacheItem,
      mapLookup (invoke extW ThrottleOptions.default funcW
          (some (.fin 1000)) [.vNum 1] stateW).2.cache.storage
        (resolvedKey extW ThrottleOptions.default [.vNum 1]) = some it ∧
      it.timer = some 1000) ∧
    (∃ it : CacheItem,
      mapLookup (invoke extW ThrottleOptions.default funcW (some .inf)
          [.vNum 1] stateW).2.cache.storage
        (resolvedKey extW ThrottleOptions.default [.vNum 1]) = some it ∧
      it.timer = none) ∧
    applyTimeout .off (some 5) = none :=
  ⟨((@throttle_timeout_classification ℤ).1 extW ThrottleOptions.default funcW
      [.vNum 1] stateW).1,
   ((@throttle_timeout_classification ℤ).2.1 extW ThrottleOptions.default
      funcW 0 (Or.inr rfl) [.vNum 1] stateW).1,
   (@throttle_timeout_classification ℤ).2.2.1 extW ThrottleOptions.default
     funcW 1000 (by decide) rfl [.vNum 1] stateW (.plain (.vNum 42)) rfl rfl
     trivial,
   (@throttle_timeout_classification ℤ).2.2.2.1 extW ThrottleOptions.default
     funcW rfl [.vNum 1] stateW (.plain (.vNum 42)) rfl rfl trivial,
   ((@throttle_timeout_classification ℤ).2.2.2.2 (some 5)).1⟩

/-- Counterexample to C2 as stated: one half is a positive finite
duration, yet the call creates no cache entry at all (the source's
`timeout < 1` guard bypasses caching, not just zero and negatives). -/
theorem throttle_subunit_timeout_no_cache_entry :
    (0 : ℚ) < mkRat 1 2 ∧ mkRat 1 2 ≠ (0 : ℚ) ∧
    (invoke extW ThrottleOptions.default funcW (some (.fin (mkRat 1 2)))
        [.vNum 1] stateW).2.cache.storage.length = 0 := by
  refine ⟨by decide, by decide, rfl⟩

/-- C6: when the callee throws synchronously on a cache-miss
invocation (caching active, key absent), the failure propagates
unchanged to the caller, no cache entry is created, and the cache is
exactly what it was before the call. -/
theorem throttle_sync_throw_propagates_atomically {ε : Type}
    (ext : JsExternals) (opts : ThrottleOptions)
    (func : List JsVal → Except ε CVal) (jn : JsNum)
    (hnb : bypassesJsNum jn = false) (args : List JsVal) (s : EngineState)
    (e : ε) (hmiss : s.cache.has (resolvedKey ext opts args) = false)
    (herr : func args = Except.error e) :
    invoke ext opts func (some jn) args s =
      (Outcome.thrown e, { s with calls := s.calls + 1 }) := by
  rw [invoke_eq_invokeCached ext opts func jn hnb args s]
  simp only [invoke.invokeCached, hmiss, Bool.false_eq_true, if_false, herr]

/-- Witness for C6's theorem: a callee throwing `7` under timeout
1000 propagates the throw and leaves the cache empty. -/
theorem throttle_sync_throw_propagates_atomically_witness :
    invoke extW ThrottleOptions.default funcErrW (some (.fin 1000))
        [.vNum 1] stateW =
      (Outcome.thrown 7, { stateW with calls := stateW.calls + 1 }) :=
  throttle_sync_throw_propagates_atomically extW ThrottleOptions.default
    funcErrW (.fin 1000) (by decide) [.vNum 1] stateW 7 rfl rfl

/-- C7: `clearCache()` with no arguments empties every entry;
`clearCache(args)` removes exactly the entry of the key the resolver
derives from `args` and leaves every other entry's binding
unchanged. -/
theorem clearCache_clear_and_delete_semantics :
    (∀ (ext : JsExternals) (opts : ThrottleOptions) (s : EngineState)
        (k : CacheKey),
      (clearCache ext opts none s).cache.has k = false) ∧
    (∀ (ext : JsExternals) (opts : ThrottleOptions) (s : EngineState)
        (args : List JsVal),
      (clearCache ext opts (some args) s).cache.has
        (resolvedKey ext opts args) = false) ∧
    (∀ (ext : JsExternals) (opts : ThrottleOptions) (s : EngineState)
        (args : List JsVal) (k : CacheKey), k ≠ resolvedKey ext opts args →
      mapLookup (clearCache ext opts (some args) s).cache.storage k =
        mapLookup s.cache.storage k) := by
  refine ⟨?_, ?_, ?_⟩
  · intro ext opts s k
    rfl
  · intro ext opts s args
    show ((s.cache.delete (resolvedKey ext opts args)).has _) = false
    unfold LruCache.has
    rw [delete_lookup_self]
    rfl
  · intro ext opts s args k hk
    exact delete_lookup_ne _ _ _ hk

/-- Witness for C7's theorem: clearing all, clearing the key of
argument `1`, and the frame on the unrelated key `"other"`. -/
theorem clearCache_clear_and_delete_semantics_witness :
    (clearCache extW ThrottleOptions.default none stateW).cache.has
        (.str "k1") = false ∧
    (clearCache extW ThrottleOptions.default (some [.vNum 1])
        stateW).cache.has
      (resolvedKey extW ThrottleOptions.default [.vNum 1]) = false ∧
    mapLookup (clearCache extW ThrottleOptions.default (some [.vNum 1])
        stateW).cache.storage (.str "other") =
      mapLookup stateW.cache.storage (.str "other") :=
  ⟨clearCache_clear_and_delete_semantics.1 extW ThrottleOptions.default
     stateW (.str "k1"),
   clearCache_clear_and_delete_semantics.2.1 extW ThrottleOptions.default
     stateW [.vNum 1],
   clearCache_clear_and_delete_semantics.2.2 extW ThrottleOptions.default
     stateW [.vNum 1] (.str "other") (by decide)⟩

/-- C5: the key resolver collapses a single-element argument
sequence to its sole element (`resolve([a]) = resolve(a)`), turns
every primitive into its string representation, and reduces arrays
of other lengths and plain objects to the structural hash. -/
theorem toResolverKey_single_argument_collapse
    (strOf : JsVal → String) (hashOf : JsVal → ℤ) (a : JsVal)
    (hprim : a.isPrimitive = true) :
    toResolverKey strOf hashOf (.vArr [a]) = toResolverKey strOf hashOf a ∧
    toResolverKey strOf hashOf a = .str (strOf a) ∧
    (∀ xs : List JsVal, xs.length ≠ 1 →
      toResolverKey strOf hashOf (.vArr xs) = .num (hashOf (.vArr xs))) ∧
    (∀ fs : List (String × JsVal),
      toResolverKey strOf hashOf (.vObj fs) = .num (hashOf (.vObj fs))) := by
  refine ⟨rfl, ?_, ?_, ?_⟩
  · cases a <;> first
      | rfl
      | simp [JsVal.isPrimitive] at hprim
  · intro xs hxs
    match xs with
    | [] => rfl
    | [x] => simp at hxs
    | x :: y :: t => rfl
  · intro fs
    rfl

/-- Witness for C5's theorem at the primitive `3` and concrete
stringification and hash functions. -/
theorem toResolverKey_single_argument_collapse_witness :
    toResolverKey (fun _ => "three") (fun _ => 0) (.vArr [.vNum 3]) =
      toResolverKey (fun _ => "three") (fun _ => 0) (.vNum 3) ∧
    toResolverKey (fun _ => "three") (fun _ => 0) (.vNum 3) =
      .str "three" ∧
    (∀ xs : List JsVal, xs.length ≠ 1 →
      toResolverKey (fun _ => "three") (fun _ => 0) (.vArr xs) =
        .num 0) ∧
    (∀ fs : List (String × JsVal),
      toResolverKey (fun _ => "three") (fun _ => 0) (.vObj fs) = .num 0) :=
  toResolverKey_single_argument_collapse (fun _ => "three") (fun _ => 0)
    (.vNum 3) rfl

/-- C9: a firing expiry timer whose weakly referenced cache has been
reclaimed runs to completion (its guards make it total) and performs
no cache mutation: the closure only cancels its own timer and leaves
the reclaimed reference as it is. -/
theorem expired_timer_noop_when_cache_reclaimed (key : CacheKey)
    (t : Option ℚ) :
    clearViaWeakRef key t none = (none, none) := rfl

/-- C4: evaluation of the code at the failing input. A reclaimed
reference (one whose `deref()` is `undefined`) makes `getRealRef`
report absence, yet `isRealRefDead` still returns `false`: the
source's `typeof v.deref() === undefined` compares the string
produced by `typeof` against the `undefined` value, which is never
equal, so `isRealRefDead` is constantly `false`. -/
theorem isRealRefDead_never_detects_death :
    getRealRef (none : Option (LruCache CacheKey CacheItem)) = none ∧
    isRealRefDead (none : Option (LruCache CacheKey CacheItem)) = false ∧
    (∀ (α : Type) (v : Option α), isRealRefDead v = false) := by
  refine ⟨rfl, rfl, ?_⟩
  intro α v
  cases v <;> rfl

/-- The spec's LRU scenario: `new Cache({maxSize: 2})` with
`set('a',1); set('b',2); set('c',3)`. -/
def lruScenarioABC : LruCache String ℕ :=
  (((LruCache.new String ℕ (some (.fin 2))).set jsStrTruthy "a" 1).set
      jsStrTruthy "b" 2).set jsStrTruthy "c" 3

/-- The failing input for the general LRU eviction claim:
`new Cache({maxSize: 1})` with `set('',1); set('b',2)`, whose second
insertion must evict the least-recently-touched key `''`. -/
def lruFalsyEviction : LruCache String ℕ :=
  ((LruCache.new String ℕ (some (.fin 1))).set jsStrTruthy "" 1).set
    jsStrTruthy "b" 2

/-- C3: evaluation of the code at the spec's scenario and at the
failing input. The scenario (keys `a`,`b`,`c`, maxSize 2) behaves as
claimed, but when the key shifted out of the recency queue is falsy
(here the empty string, with maxSize 1), the `if (evictKey)` guard
skips the storage delete: the evicted key stays retrievable via
`has` and the storage exceeds `maxSize`, contradicting the claim
that the least-recently-touched key is no longer retrievable. -/
theorem lru_eviction_skips_falsy_key :
    lruScenarioABC.has "a" = false ∧
    lruScenarioABC.has "b" = true ∧
    lruScenarioABC.has "c" = true ∧
    lruFalsyEviction.queue = ["b"] ∧
    lruFalsyEviction.has "" = true ∧
    lruFalsyEviction.has "b" = true ∧
    lruFalsyEviction.storage.length = 2 := by
  refine ⟨rfl, rfl, rfl, rfl, rfl, rfl, rfl⟩

/-- C10: a configured `maxSize` of 0 is falsy, so the constructor's
`options.maxSize || Infinity` makes the cache unbounded (and the
engine's `getCache` hands 0 through to that constructor): eviction
is disabled and every key of any sequence of `set`s with distinct
keys stays retrievable via `has` and `get`. Distinctness is stated
as the claim does, though the proof never evicts regardless. -/
theorem lru_maxSize_zero_is_unbounded :
    (∀ (K V : Type), (LruCache.new K V (some (.fin 0))).maxSize = .inf) ∧
    (∀ opts : ThrottleOptions, opts.maxSize = some (.fin 0) →
      (getCache opts).maxSize = .inf) ∧
    (∀ (K V : Type) [DecidableEq K] (tr : K → Bool)
        (ops : List (K × V)) (k : K),
      (ops.map Prod.fst).Nodup → k ∈ ops.map Prod.fst →
      (applySets tr (LruCache.new K V (some (.fin 0))) ops).has k = true ∧
      ((applySets tr (LruCache.new K V (some (.fin 0))) ops).get tr
          k).2.isSome = true) := by
  refine ⟨?_, ?_, ?_⟩
  · intro K V
    simp [LruCache.new]
  · intro opts h
    unfold getCache
    rw [h]
    simp [LruCache.new]
  · intro K V _ tr ops k hnd hk
    have hinf : (LruCache.new K V (some (.fin 0))).maxSize = .inf := by
      simp [LruCache.new]
    have hhas := applySets_inf_has tr _ hinf ops k (Or.inl hk)
    exact ⟨hhas, get_inf_isSome tr _ k
      (applySets_inf_maxSize tr _ hinf ops) hhas⟩

/-- Witness for C10's theorem: three distinct string keys inserted
into a maxSize-0 cache all stay retrievable, and the engine's cache
for `maxSize: 0` is unbounded. -/
theorem lru_maxSize_zero_is_unbounded_witness :
    (getCache { ThrottleOptions.default with
        maxSize := some (.fin 0) }).maxSize = .inf ∧
    (applySets jsStrTruthy (LruCache.new String ℕ (some (.fin 0)))
        [("a", 1), ("b", 2), ("c", 3)]).has "b" = true ∧
    ((applySets jsStrTruthy (LruCache.new String ℕ (some (.fin 0)))
        [("a", 1), ("b", 2), ("c", 3)]).get jsStrTruthy
        "b").2.isSome = true :=
  ⟨lru_maxSize_zero_is_unbounded.2.1
     { ThrottleOptions.default with maxSize := some (.fin 0) } rfl,
   (lru_maxSize_zero_is_unbounded.2.2 String ℕ jsStrTruthy
      [("a", 1), ("b", 2), ("c", 3)] "b" (by decide) (by decide)).1,
   (lru_maxSize_zero_is_unbounded.2.2 String ℕ jsStrTruthy
      [("a", 1), ("b", 2), ("c", 3)] "b" (by decide) (by decide)).2⟩

theorem updateStored_lookup_ne {K V : Type} [DecidableEq K]
    (c : LruCache K V) (k k' : K) (f : V → V) (h : k' ≠ k) :
    mapLookup (c.updateStored k f).storage k' = mapLookup c.storage k' :=
  mapUpdate_lookup_ne _ _ _ _ h

/-- C8: unless `rejectFailedPromise` is configured `false`, a
promise-valued cache item gets `item.clear` attached as a rejection
handler — at population time, the stored entry's promise carries the
handler for its own key — and when the promise ultimately rejects,
running the handlers evicts exactly that entry, leaves every other
binding unchanged, and reports the original rejection reason (the
handler observes the failure, it does not replace it).  With
`rejectFailedPromise: false`, `getOnCached` is just the user
observer or a no-op, so the engine attaches no handler and the
stored promise keeps its handler list. -/
theorem rejectFailedPromise_handler_semantics :
    (∀ (rejOpt : Option Bool) (item : CacheItem) (r : ℤ)
        (hs : List CacheKey), rejOpt ≠ some false →
      item.value = .prom r hs →
      (getOnCached rejOpt none item).value = .prom r (hs ++ [item.key])) ∧
    (∀ onC : Option (CacheItem → CacheItem),
      getOnCached (some false) onC = onC.getD id) ∧
    (∀ (ε : Type) (ext : JsExternals) (opts : ThrottleOptions)
        (func : List JsVal → Except ε CVal) (q : ℚ), 1 ≤ q →
      opts.onCached = none → opts.rejectFailedPromise ≠ some false →
      ∀ (args : List JsVal) (s : EngineState) (r : ℤ)
          (hs0 : List CacheKey),
        s.cache.has (resolvedKey ext opts args) = false →
        func args = Except.ok (.prom r hs0) → boundOk s.cache →
        ∃ it : CacheItem,
          mapLookup
            (invoke ext opts func (some (.fin q)) args s).2.cache.storage
            (resolvedKey ext opts args) = some it ∧
          it.value = .prom r (hs0 ++ [resolvedKey ext opts args])) ∧
    (∀ (ε : Type) (ext : JsExternals) (opts : ThrottleOptions)
        (func : List JsVal → Except ε CVal) (q : ℚ), 1 ≤ q →
      opts.onCached = none → opts.rejectFailedPromise = some false →
      ∀ (args : List JsVal) (s : EngineState) (r : ℤ)
          (hs0 : List CacheKey),
        s.cache.has (resolvedKey ext opts args) = false →
        func args = Except.ok (.prom r hs0) → boundOk s.cache →
        ∃ it : CacheItem,
          mapLookup
            (invoke ext opts func (some (.fin q)) args s).2.cache.storage
            (resolvedKey ext opts args) = some it ∧
          it.value = .prom r hs0) ∧
    (∀ (c : LruCache CacheKey CacheItem) (r : ℤ) (k : CacheKey),
      (fireRejection (.prom r [k]) c).2 = some r ∧
      (fireRejection (.prom r [k]) c).1.has k = false ∧
      (∀ k', k' ≠ k →
        mapLookup (fireRejection (.prom r [k]) c).1.storage k' =
          mapLookup c.storage k')) := by
  refine ⟨?_, ?_, ?_, ?_, ?_⟩
  · intro rejOpt item r hs hne hval
    unfold getOnCached
    rw [if_neg hne]
    show (rejectFailedPromise item).value = _
    unfold rejectFailedPromise
    rw [hval]
  · intro onC
    unfold getOnCached
    rw [if_pos rfl]
  · intro ε ext opts func q hq honc hrej args s r hs0 hmiss hok hb
    rw [invoke_eq_invokeCached ext opts func _
      (by simp [bypassesJsNum, not_bypassesNum_of_one_le hq]) args s]
    obtain ⟨c4, heq, hlook, -, -⟩ :=
      invokeCached_populate ext opts func (.fin q) args s _ hmiss hok hb
    rw [heq]
    refine ⟨_, hlook, ?_⟩
    unfold populatedItem getOnCached
    rw [honc, if_neg hrej]
    rfl
  · intro ε ext opts func q hq honc hrej args s r hs0 hmiss hok hb
    rw [invoke_eq_invokeCached ext opts func _
      (by simp [bypassesJsNum, not_bypassesNum_of_one_le hq]) args s]
    obtain ⟨c4, heq, hlook, -, -⟩ :=
      invokeCached_populate ext opts func (.fin q) args s _ hmiss hok hb
    rw [heq]
    refine ⟨_, hlook, ?_⟩
    unfold populatedItem getOnCached
    rw [honc, if_pos hrej]
    rfl
  · intro c r k
    refine ⟨rfl, ?_, ?_⟩
    · show ((((c.updateStored k _).delete k)).has k) = false
      unfold LruCache.has
      rw [delete_lookup_self]
      rfl
    · intro k' hk'
      show mapLookup (((c.updateStored k _).delete k)).storage k' = _
      rw [delete_lookup_ne _ _ _ hk', updateStored_lookup_ne _ _ _ _ hk']

/-- Witness for C8's theorem: a promise item under default options
gets its own key attached as handler; with `rejectFailedPromise:
false` the observer is a no-op; population stores the handler;
firing a rejection evicts the key, spares `"other"`, and reports
reason 5. -/
theorem rejectFailedPromise_handler_semantics_witness :
    (getOnCached none none
        { key := .str "p", value := .prom 5 [], timer := none }).value =
      .prom 5 [.str "p"] ∧
    getOnCached (some false) none = id ∧
    (∃ it : CacheItem,
      mapLookup (invoke extW ThrottleOptions.default funcPromW
          (some (.fin 1000)) [.vNum 1] stateW).2.cache.storage
        (resolvedKey extW ThrottleOptions.default [.vNum 1]) = some it ∧
      it.value = .prom 5
        [resolvedKey extW ThrottleOptions.default [.vNum 1]]) ∧
    (∃ it : CacheItem,
      mapLookup (invoke extW
          { ThrottleOptions.default with rejectFailedPromise := some false }
          funcPromW (some (.fin 1000)) [.vNum 1]
          (EngineState.init { ThrottleOptions.default with
            rejectFailedPromise := some false })).2.cache.storage
        (resolvedKey extW
          { ThrottleOptions.default with rejectFailedPromise := some false }
          [.vNum 1]) = some it ∧
      it.value = .prom 5 []) ∧
    (fireRejection (.prom 5 [.str "k1"]) stateW.cache).2 = some 5 ∧
    (fireRejection (.prom 5 [.str "k1"]) stateW.cache).1.has
        (.str "k1") = false ∧
    mapLookup (fireRejection (.prom 5 [.str "k1"])
        stateW.cache).1.storage (.str "other") =
      mapLookup stateW.cache.storage (.str "other") :=
  ⟨rejectFailedPromise_handler_semantics.1 none
     { key := .str "p", value := .prom 5 [], timer := none } 5 []
     (by decide) rfl,
   rejectFailedPromise_handler_semantics.2.1 none,
   rejectFailedPromise_handler_semantics.2.2.1 ℤ extW
     ThrottleOptions.default funcPromW 1000 (by decide) rfl (by decide)
     [.vNum 1] stateW 5 [] rfl rfl trivial,
   rejectFailedPromise_handler_semantics.2.2.2.1 ℤ extW
     { ThrottleOptions.default with rejectFailedPromise := some false }
     funcPromW 1000 (by decide) rfl rfl [.vNum 1]
     (EngineState.init { ThrottleOptions.default with
        rejectFailedPromise := some false }) 5 [] rfl rfl trivial,
   (rejectFailedPromise_handler_semantics.2.2.2.2 stateW.cache 5
      (.str "k1")).1,
   (rejectFailedPromise_handler_semantics.2.2.2.2 stateW.cache 5
      (.str "k1")).2.1,
   (rejectFailedPromise_handler_semantics.2.2.2.2 stateW.cache 5
      (.str "k1")).2.2 (.str "other") (by decide)⟩
